import Mathlib

/-!
Verification development for `Topo_Xsection.py` (topography cross-section to
DXF app).  The core pipeline is embedded shallowly:

* `get_integer_digits` — the digit-count validation (source lines 69-77);
* `line`, `lineFor`, `bresenhamWhile` — the Bresenham rasterizer invoked via
  `skimage.draw.line` (source line 46); the embedding follows the skimage
  `_draw.pyx` `_line` routine literally (octant swap, error accumulator `d`,
  inner `while d >= 0` loop, final endpoint write);
* `npGet` / `sampleAll` / `extract_cross_section` — numpy integer-array
  indexing `dem_data[rr, cc]` with its negative-index wrapping and
  out-of-bounds `IndexError` (source lines 45-47);
* `Affine` / `rowcol` / `toPixel` — `rasterio.transform.rowcol` (whose default
  rounding op is `math.floor`) followed by `int(round(...))` (source
  lines 98-103), with float coordinates embedded as rationals;
* `exportPoints` — the `enumerate`-based DXF polyline points (line 117);
* `runMain` / `runTry` — the main processing block (lines 60-141) as a
  trace-producing function over an environment of external outcomes
  (raster open success, DXF save success), recording which temporary files
  are created and deleted on each path.
-/

/-- Decimal length of a natural number: one recursion step per division by
ten; the first argument is fuel (always called with fuel `n`, which bounds
the recursion depth).  This is `len(str(n))` for a nonnegative Python int,
with `len(str(0)) = 1`. -/
def pyStrLenGo : ℕ → ℕ → ℕ
  | 0, _ => 1
  | fuel + 1, n => if n < 10 then 1 else pyStrLenGo fuel (n / 10) + 1

/-- Embeds `len(str(n))` for `n : ℕ`. -/
def pyStrLen (n : ℕ) : ℕ := pyStrLenGo n n

/-- Embeds `get_integer_digits` (source lines 69-70):
`len(str(int(abs(float(num)))))`.  Python `int(...)` truncates toward zero,
which on the nonnegative value `|q|` is the floor. -/
def get_integer_digits (q : ℚ) : ℕ := pyStrLen (Int.toNat ⌊|q|⌋)

/-- The elevation raster band `dem_data`: a height × width grid of float
samples, embedded with rational entries addressed by row then column. -/
structure Grid where
  height : ℕ
  width : ℕ
  data : ℕ → ℕ → ℚ

/-- Numpy integer-index resolution along one axis of length `n`: an index in
`[0, n)` is used as is, an index in `[-n, 0)` wraps to `i + n`, and anything
else raises `IndexError` (modelled as `none`). -/
def wrapIdx (n : ℕ) (i : ℤ) : Option ℕ :=
  if 0 ≤ i ∧ i < (n : ℤ) then some i.toNat
  else if -(n : ℤ) ≤ i ∧ i < 0 then some (i + n).toNat
  else none

/-- One element of the fancy-indexing read `dem_data[rr, cc]`: resolve both
indices with numpy semantics and look the sample up. -/
def npGet (g : Grid) (r c : ℤ) : Option ℚ :=
  match wrapIdx g.height r, wrapIdx g.width c with
  | some ri, some ci => some (g.data ri ci)
  | _, _ => none

/-- The whole fancy-indexing read `dem_data[rr, cc]`: one sample per path
pixel, in path order; any out-of-bounds pixel makes the whole read raise. -/
def sampleAll (g : Grid) : List (ℤ × ℤ) → Option (List ℚ)
  | [] => some []
  | p :: ps =>
    match npGet g p.1 p.2, sampleAll g ps with
    | some v, some vs => some (v :: vs)
    | _, _ => none

/-- The pixel the skimage loop body emits: in the steep octants the row and
column variables were swapped, so `rr[i] = c` and `cc[i] = r`. -/
def ptOf : Bool → ℤ → ℤ → ℤ × ℤ
  | true, r, c => (c, r)
  | false, r, c => (r, c)

/-- The inner `while d >= 0: r += sr; d -= 2*dc` loop of skimage `_line`.
The first argument is fuel; `bresenhamWhile` supplies fuel `(d+1).toNat`,
which bounds the iteration count whenever `0 < dcN` (the only way the loop
is reached from `lineFor`, since the surrounding `for` runs `dcN` times). -/
def whileLoop (dcN : ℕ) (sr : ℤ) : ℕ → ℤ → ℤ → ℤ × ℤ
  | 0, r, d => (r, d)
  | fuel + 1, r, d =>
    if 0 ≤ d then whileLoop dcN sr fuel (r + sr) (d - 2 * (dcN : ℤ))
    else (r, d)

/-- The inner while loop of skimage `_line`, returning the updated `(r, d)`. -/
def bresenhamWhile (dcN : ℕ) (sr r d : ℤ) : ℤ × ℤ :=
  whileLoop dcN sr (d + 1).toNat r d

/-- The `for i in range(dc)` loop of skimage `_line` (post-swap state): emits
the current pixel, runs the inner while loop, then `c += sc; d += 2*dr`.
Returns the emitted pixels together with the final `(r, c, d)` state. -/
def lineFor (steep : Bool) (sc sr twodr : ℤ) (dcN : ℕ) :
    ℕ → ℤ → ℤ → ℤ → List (ℤ × ℤ) × (ℤ × ℤ × ℤ)
  | 0, r, c, d => ([], (r, c, d))
  | n + 1, r, c, d =>
    let rd := bresenhamWhile dcN sr r d
    let rest := lineFor steep sc sr twodr dcN n rd.1 (c + sc) (rd.2 + twodr)
    (ptOf steep r c :: rest.1, rest.2)

/-- Embeds `skimage.draw.line(r0, c0, r1, c1)` (the `_line` routine of `_draw.pyx`),
with the returned `(rr, cc)` arrays zipped into a list of `(row, col)`
pixels: compute `dr`, `dc`, the step signs (`-1` when the delta is zero or
negative, exactly as in the source), swap the axes in the steep octants,
run the Bresenham loop from `d = 2*dr - dc`, and finally write the end
pixel `(r1, c1)` at position `dc`. -/
def line (r0 c0 r1 c1 : ℤ) : List (ℤ × ℤ) :=
  let dr0 := (r1 - r0).natAbs
  let dc0 := (c1 - c0).natAbs
  let sc0 : ℤ := if 0 < c1 - c0 then 1 else -1
  let sr0 : ℤ := if 0 < r1 - r0 then 1 else -1
  if dc0 < dr0 then
    (lineFor true sr0 sc0 (2 * (dc0 : ℤ)) dr0 dr0 c0 r0
        (2 * (dc0 : ℤ) - (dr0 : ℤ))).1 ++ [(r1, c1)]
  else
    (lineFor false sc0 sr0 (2 * (dr0 : ℤ)) dc0 dc0 r0 c0
        (2 * (dr0 : ℤ) - (dc0 : ℤ))).1 ++ [(r1, c1)]

/-- Embeds `extract_cross_section` (source lines 45-47): rasterize the segment with
`skimage.draw.line` and sample the raster along it with `dem_data[rr, cc]`. -/
def extract_cross_section (g : Grid) (p0 p1 : ℤ × ℤ) : Option (List ℚ) :=
  sampleAll g (line p0.1 p0.2 p1.1 p1.2)

/-- The raster's affine geo-transform, in rasterio coefficient order:
`x = a*col + b*row + c`, `y = d*col + e*row + f`. -/
structure Affine where
  a : ℚ
  b : ℚ
  c : ℚ
  d : ℚ
  e : ℚ
  f : ℚ

/-- Determinant of the linear part of the transform; `~transform` exists
exactly when it is nonzero. -/
def Affine.det (T : Affine) : ℚ := T.a * T.e - T.b * T.d

/-- Embeds `~transform * (x, y)`: the fractional `(col, row)` obtained by applying
the inverse affine transform, as in affine's `__invert__` composed with
application. -/
def Affine.invColRow (T : Affine) (x y : ℚ) : ℚ × ℚ :=
  ((T.e * (x - T.c) - T.b * (y - T.f)) / T.det,
   (-T.d * (x - T.c) + T.a * (y - T.f)) / T.det)

/-- Embeds `rasterio.transform.rowcol(transform, x, y)` with its default
`op = math.floor`: apply the inverse transform and floor each fractional
component, returning `(row, col)`. -/
def rowcol (T : Affine) (x y : ℚ) : ℤ × ℤ :=
  (⌊(T.invColRow x y).2⌋, ⌊(T.invColRow x y).1⌋)

/-- Python `round` applied to an `int` (which `rowcol` already returns)
yields the same int; `int(...)` of an int is likewise the identity. -/
def pyRoundInt (n : ℤ) : ℤ := n

/-- Embeds `start_pixel` / `end_pixel` (source lines 98-103): `rowcol` followed by
`int(round(...))` on each component. -/
def toPixel (T : Affine) (x y : ℚ) : ℤ × ℤ :=
  (pyRoundInt (rowcol T x y).1, pyRoundInt (rowcol T x y).2)

/-- Python `enumerate` starting at `i` over the elevation values. -/
def enumFromQ (i : ℕ) : List ℚ → List (ℕ × ℚ)
  | [] => []
  | x :: xs => (i, x) :: enumFromQ (i + 1) xs

/-- Embeds `points = [(i, elevation) for i, elevation in enumerate(elevation_values)]`
(source line 117). -/
def exportPoints (elev : List ℚ) : List (ℕ × ℚ) := enumFromQ 0 elev

/-- Which branch of the main block the request ends in. -/
inductive Outcome where
  | missingInput
  | invalidNumeric
  | digitMismatch
  | procError
  | success
deriving DecidableEq

/-- Observable effects of one request: which temporary files were created
and deleted, whether the raster was opened and read, the final branch, and
the elevation profile if one was produced. -/
structure Trace where
  tifCreated : Bool
  tifDeleted : Bool
  dxfCreated : Bool
  dxfDeleted : Bool
  rasterRead : Bool
  outcome : Outcome
  profile : Option (List ℚ)

/-- Outcomes of the external collaborators for one request: the decoded
raster and its transform, whether `rasterio.open`/`read` succeeds, and
whether `doc.saveas` succeeds. -/
structure Env where
  grid : Grid
  transform : Affine
  openOk : Bool
  saveOk : Bool

/-- One coordinate text field: whether the string is nonempty (the `all`
check of line 60) and the result of `float(value)` (source lines 27-32,
`none` meaning `ValueError`). -/
structure InputField where
  filled : Bool
  val : Option ℚ

/-- A nonempty field holding a string that parses to `q`. -/
def goodField (q : ℚ) : InputField := ⟨true, some q⟩

/-- A trace for a request that stopped before creating any file. -/
def noFileTrace (o : Outcome) : Trace := ⟨false, false, false, false, false, o, none⟩

/-- The `try` block of the main processing logic (source lines 83-139): the
uploaded bytes are first written to a `.tif` temporary file (line 83, before
the `try`, so `tifCreated` is always true here); then the raster is opened,
pixels computed (`~transform` raises when the determinant is zero), the
cross-section extracted (numpy raising `IndexError` on a true out-of-bounds
pixel), the DXF written to a second temporary file, and only at the end of
the `try` are both files unlinked (lines 134-136) — so any exception path
leaves every file created so far undeleted. -/
def runTry (sx sy ex ey : ℚ) (env : Env) : Trace :=
  if env.openOk then
    if env.transform.det = 0 then
      ⟨true, false, false, false, true, .procError, none⟩
    else
      match extract_cross_section env.grid
          (toPixel env.transform sx sy) (toPixel env.transform ex ey) with
      | some elev =>
        if env.saveOk then ⟨true, true, true, true, true, .success, some elev⟩
        else ⟨true, false, true, false, true, .procError, none⟩
      | none => ⟨true, false, false, false, true, .procError, none⟩
  else ⟨true, false, false, false, false, .procError, none⟩

/-- The main processing logic (source lines 60-141): gate on the upload and
the four nonempty fields, validate numeric parsing, enforce the chained
digit-count equality `x_digits == y_digits == end_x_digits == end_y_digits`
(line 77), and only then run the raster pipeline. -/
def runMain (uploaded : Bool) (sx sy ex ey : InputField) (env : Env) : Trace :=
  if uploaded ∧ (sx.filled ∧ sy.filled ∧ ex.filled ∧ ey.filled) then
    match sx.val, sy.val, ex.val, ey.val with
    | some a, some b, some c, some d =>
      if get_integer_digits a = get_integer_digits b ∧
          get_integer_digits b = get_integer_digits c ∧
          get_integer_digits c = get_integer_digits d then
        runTry a b c d env
      else noFileTrace .digitMismatch
    | _, _, _, _ => noFileTrace .invalidNumeric
  else noFileTrace .missingInput

/-- Sign of the direction from `a` to `b` (`0` when they coincide). -/
def signT (a b : ℤ) : ℤ := if a < b then 1 else if b < a then -1 else 0

/-- One admissible step of the rasterized path from `(r0, c0)` to
`(r1, c1)`: each component moves by `0` or by the sign of its overall
direction, and the pixel changes. -/
def lineStep (r0 c0 r1 c1 : ℤ) (p q : ℤ × ℤ) : Prop :=
  (q.1 - p.1 = 0 ∨ q.1 - p.1 = signT r0 r1) ∧
  (q.2 - p.2 = 0 ∨ q.2 - p.2 = signT c0 c1) ∧ p ≠ q

/-- One step of the Bresenham loop in post-swap coordinates: the fast axis
advances by exactly `sc` and the slow axis by `0` or `sr`, the latter only
when the slow delta `drN` is positive. -/
def stepRel : Bool → ℤ → ℤ → ℕ → ℤ × ℤ → ℤ × ℤ → Prop
  | true, sc, sr, drN, p, q =>
    q.1 - p.1 = sc ∧ (q.2 - p.2 = 0 ∨ (q.2 - p.2 = sr ∧ 0 < drN))
  | false, sc, sr, drN, p, q =>
    q.2 - p.2 = sc ∧ (q.1 - p.1 = 0 ∨ (q.1 - p.1 = sr ∧ 0 < drN))

/-- Identity geo-transform: pixel `(row, col)` sits at `(x, y) = (col, row)`. -/
def idAffine : Affine := ⟨1, 0, 0, 0, 1, 0⟩

/-- A 2 × 2 grid with pairwise distinct samples, for concrete instances. -/
def g2 : Grid := ⟨2, 2, fun i j => ((10 * i + j : ℕ) : ℚ)⟩

/-- A 2 × 3 grid for concrete sampling instances. -/
def gridW : Grid := ⟨2, 3, fun i j => ((10 * i + j : ℕ) : ℚ)⟩

/-- A concrete in-bounds path on `gridW`. -/
def pathW : List (ℤ × ℤ) := [(0, 0), (1, 2)]

/-- A 10 × 10 constant-zero grid large enough for small pixel coordinates. -/
def grid10 : Grid := ⟨10, 10, fun _ _ => 0⟩

/-- An environment in which the raster cannot be opened at all. -/
def env0 : Env := ⟨grid10, idAffine, false, false⟩

/-- An environment in which opening the raster fails (for example a corrupt
TIFF), after the upload was already written to the `.tif` temporary file. -/
def envFail : Env := ⟨grid10, idAffine, false, true⟩

/-- An environment in which every external step succeeds. -/
def envGood : Env := ⟨grid10, idAffine, true, true⟩

/-- The inner loop leaves its state unchanged when `d` is already negative. -/
theorem whileLoop_neg (dcN : ℕ) (sr : ℤ) (fuel : ℕ) (r d : ℤ) (hd : d < 0) :
    whileLoop dcN sr fuel r d = (r, d) := by
  have h : ¬ 0 ≤ d := by omega
  cases fuel with
  | zero => rfl
  | succ fuel => simp [whileLoop, h]

/-- When `0 < dcN` and `d < 2*dcN` (the invariant of every call site in
`lineFor`), the inner while loop runs at most once: it adds `sr` to `r` and
subtracts `2*dcN` from `d` exactly when `0 ≤ d`. -/
theorem bresenhamWhile_eq (dcN : ℕ) (sr r d : ℤ)
    (hlt : d < 2 * (dcN : ℤ)) :
    bresenhamWhile dcN sr r d = if 0 ≤ d then (r + sr, d - 2 * (dcN : ℤ)) else (r, d) := by
  by_cases h0 : 0 ≤ d
  · have hfuel : (d + 1).toNat = d.toNat + 1 := by omega
    rw [if_pos h0, bresenhamWhile, hfuel]
    simp only [whileLoop, if_pos h0]
    exact whileLoop_neg dcN sr d.toNat (r + sr) (d - 2 * (dcN : ℤ)) (by omega)
  · rw [if_neg h0, bresenhamWhile]
    exact whileLoop_neg dcN sr (d + 1).toNat r d (by omega)


/-- One-step unfolding of the emitted-pixel loop. -/
theorem lineFor_succ (steep : Bool) (sc sr twodr : ℤ) (dcN : ℕ) (n : ℕ) (r c d : ℤ) :
    lineFor steep sc sr twodr dcN (n + 1) r c d =
      (ptOf steep r c ::
        (lineFor steep sc sr twodr dcN n (bresenhamWhile dcN sr r d).1 (c + sc)
          ((bresenhamWhile dcN sr r d).2 + twodr)).1,
       (lineFor steep sc sr twodr dcN n (bresenhamWhile dcN sr r d).1 (c + sc)
          ((bresenhamWhile dcN sr r d).2 + twodr)).2) := rfl

/-- One-step unfolding when the accumulator is nonnegative (the slow axis
advances). -/
theorem lineFor_succ_pos (steep : Bool) (sc sr twodr : ℤ) (dcN : ℕ) (n : ℕ)
    (r c d : ℤ) (h0 : 0 ≤ d) (hlt : d < 2 * (dcN : ℤ)) :
    lineFor steep sc sr twodr dcN (n + 1) r c d =
      (ptOf steep r c ::
        (lineFor steep sc sr twodr dcN n (r + sr) (c + sc)
          (d - 2 * (dcN : ℤ) + twodr)).1,
       (lineFor steep sc sr twodr dcN n (r + sr) (c + sc)
          (d - 2 * (dcN : ℤ) + twodr)).2) := by
  rw [lineFor_succ, bresenhamWhile_eq dcN sr r d hlt, if_pos h0]

/-- One-step unfolding when the accumulator is negative (the slow axis
stays). -/
theorem lineFor_succ_neg (steep : Bool) (sc sr twodr : ℤ) (dcN : ℕ) (n : ℕ)
    (r c d : ℤ) (h0 : d < 0) :
    lineFor steep sc sr twodr dcN (n + 1) r c d =
      (ptOf steep r c ::
        (lineFor steep sc sr twodr dcN n r (c + sc) (d + twodr)).1,
       (lineFor steep sc sr twodr dcN n r (c + sc) (d + twodr)).2) := by
  have hb : bresenhamWhile dcN sr r d = (r, d) := by
    rw [bresenhamWhile]
    exact whileLoop_neg dcN sr (d + 1).toNat r d h0
  rw [lineFor_succ, hb]

/-- Master invariant of the skimage `for` loop, in post-swap coordinates with
`twodr = 2*drN` and `drN ≤ dcN` (the octant normalisation): starting from an
error accumulator in `[2*drN - 2*dcN, 2*drN)`, running `n` iterations emits
exactly `n` pixels, advances the fast coordinate `c` by `n*sc`, advances the
slow coordinate `r` by `j*sr` where `2*drN*n - 2*dcN*j = d_final - d`, keeps
the accumulator in the same window, starts the emitted list at the initial
pixel, and every consecutive pair of the emitted list extended by the final
state's pixel is one admissible Bresenham step. -/
theorem lineFor_spec (steep : Bool) (sc sr : ℤ) (drN dcN : ℕ)
    (hdrdc : drN ≤ dcN) (hdc : 0 < dcN) :
    ∀ (n : ℕ) (r c d : ℤ),
      2 * (drN : ℤ) - 2 * (dcN : ℤ) ≤ d → d < 2 * (drN : ℤ) →
      (lineFor steep sc sr (2 * (drN : ℤ)) dcN n r c d).1.length = n ∧
      (lineFor steep sc sr (2 * (drN : ℤ)) dcN n r c d).2.2.1 = c + n * sc ∧
      (∃ j : ℕ,
        (lineFor steep sc sr (2 * (drN : ℤ)) dcN n r c d).2.1 = r + j * sr ∧
        2 * (drN : ℤ) * n - 2 * (dcN : ℤ) * j =
          (lineFor steep sc sr (2 * (drN : ℤ)) dcN n r c d).2.2.2 - d) ∧
      (2 * (drN : ℤ) - 2 * (dcN : ℤ) ≤
          (lineFor steep sc sr (2 * (drN : ℤ)) dcN n r c d).2.2.2 ∧
        (lineFor steep sc sr (2 * (drN : ℤ)) dcN n r c d).2.2.2 < 2 * (drN : ℤ)) ∧
      (0 < n →
        (lineFor steep sc sr (2 * (drN : ℤ)) dcN n r c d).1.head? =
          some (ptOf steep r c)) ∧
      List.Chain' (stepRel steep sc sr drN)
        ((lineFor steep sc sr (2 * (drN : ℤ)) dcN n r c d).1 ++
          [ptOf steep (lineFor steep sc sr (2 * (drN : ℤ)) dcN n r c d).2.1
              (lineFor steep sc sr (2 * (drN : ℤ)) dcN n r c d).2.2.1]) := by
  intro n
  induction n with
  | zero =>
    intro r c d hlow hhigh
    refine ⟨rfl, by simp [lineFor], ⟨0, by simp [lineFor], by simp [lineFor]⟩,
      ⟨hlow, hhigh⟩, by simp, by simp [lineFor]⟩
  | succ n ih =>
    intro r c d hlow hhigh
    have hdrc : (drN : ℤ) ≤ (dcN : ℤ) := by exact_mod_cast hdrdc
    by_cases h0 : 0 ≤ d
    · have hdrpos : (0 : ℤ) < (drN : ℤ) := by omega
      rw [lineFor_succ_pos steep sc sr (2 * (drN : ℤ)) dcN n r c d h0 (by omega)]
      obtain ⟨ih1, ih2, ⟨j, ihr, ihd⟩, ⟨ihlo, ihhi⟩, ihhead, ihchain⟩ :=
        ih (r + sr) (c + sc) (d - 2 * (dcN : ℤ) + 2 * (drN : ℤ)) (by omega) (by omega)
      refine ⟨by simpa using ih1, ?_, ⟨j + 1, ?_, ?_⟩, ⟨by simpa using ihlo, by simpa using ihhi⟩,
        fun _ => rfl, ?_⟩
      · show (lineFor steep sc sr (2 * (drN : ℤ)) dcN n (r + sr) (c + sc)
            (d - 2 * (dcN : ℤ) + 2 * (drN : ℤ))).2.2.1 = c + (↑(n + 1)) * sc
        rw [ih2]; push_cast; ring
      · show (lineFor steep sc sr (2 * (drN : ℤ)) dcN n (r + sr) (c + sc)
            (d - 2 * (dcN : ℤ) + 2 * (drN : ℤ))).2.1 = r + (↑(j + 1)) * sr
        rw [ihr]; push_cast; ring
      · show 2 * (drN : ℤ) * (↑(n + 1)) - 2 * (dcN : ℤ) * (↑(j + 1)) =
            (lineFor steep sc sr (2 * (drN : ℤ)) dcN n (r + sr) (c + sc)
              (d - 2 * (dcN : ℤ) + 2 * (drN : ℤ))).2.2.2 - d
        push_cast
        linarith [ihd]
      · -- the chain: head step then the tail chain from the ih
        rw [List.cons_append, List.chain'_cons']
        refine ⟨?_, ihchain⟩
        intro y hy
        have hy2 : y = ptOf steep (r + sr) (c + sc) := by
          cases n with
          | zero =>
            simp only [lineFor] at hy
            simp at hy
            exact hy.symm
          | succ m =>
            have hne : (lineFor steep sc sr (2 * (drN : ℤ)) dcN (m + 1) (r + sr) (c + sc)
                (d - 2 * (dcN : ℤ) + 2 * (drN : ℤ))).1 ≠ [] := by
              intro hnil
              have := ih1
              rw [hnil] at this
              simp at this
            rw [List.head?_append_of_ne_nil _ hne] at hy
            rw [ihhead (by omega)] at hy
            simp at hy
            exact hy.symm
        subst hy2
        cases steep with
        | true =>
          refine ⟨?_, Or.inr ⟨?_, by omega⟩⟩
          · show (c + sc) - c = sc
            ring
          · show (r + sr) - r = sr
            ring
        | false =>
          refine ⟨?_, Or.inr ⟨?_, by omega⟩⟩
          · show (c + sc) - c = sc
            ring
          · show (r + sr) - r = sr
            ring
    · have hdneg : d < 0 := by omega
      rw [lineFor_succ_neg steep sc sr (2 * (drN : ℤ)) dcN n r c d hdneg]
      obtain ⟨ih1, ih2, ⟨j, ihr, ihd⟩, ⟨ihlo, ihhi⟩, ihhead, ihchain⟩ :=
        ih r (c + sc) (d + 2 * (drN : ℤ)) (by omega) (by omega)
      refine ⟨by simpa using ih1, ?_, ⟨j, ?_, ?_⟩, ⟨by simpa using ihlo, by simpa using ihhi⟩,
        fun _ => rfl, ?_⟩
      · show (lineFor steep sc sr (2 * (drN : ℤ)) dcN n r (c + sc)
            (d + 2 * (drN : ℤ))).2.2.1 = c + (↑(n + 1)) * sc
        rw [ih2]; push_cast; ring
      · show (lineFor steep sc sr (2 * (drN : ℤ)) dcN n r (c + sc)
            (d + 2 * (drN : ℤ))).2.1 = r + (j : ℤ) * sr
        rw [ihr]
      · show 2 * (drN : ℤ) * (↑(n + 1)) - 2 * (dcN : ℤ) * (j : ℤ) =
            (lineFor steep sc sr (2 * (drN : ℤ)) dcN n r (c + sc)
              (d + 2 * (drN : ℤ))).2.2.2 - d
        push_cast
        linarith [ihd]
      · rw [List.cons_append, List.chain'_cons']
        refine ⟨?_, ihchain⟩
        intro y hy
        have hy2 : y = ptOf steep r (c + sc) := by
          cases n with
          | zero =>
            simp only [lineFor] at hy
            simp at hy
            exact hy.symm
          | succ m =>
            have hne : (lineFor steep sc sr (2 * (drN : ℤ)) dcN (m + 1) r (c + sc)
                (d + 2 * (drN : ℤ))).1 ≠ [] := by
              intro hnil
              have := ih1
              rw [hnil] at this
              simp at this
            rw [List.head?_append_of_ne_nil _ hne] at hy
            rw [ihhead (by omega)] at hy
            simp at hy
            exact hy.symm
        subst hy2
        cases steep with
        | true =>
          refine ⟨?_, Or.inl ?_⟩
          · show (c + sc) - c = sc
            ring
          · show r - r = 0
            ring
        | false =>
          refine ⟨?_, Or.inl ?_⟩
          · show (c + sc) - c = sc
            ring
          · show r - r = 0
            ring

/-- After the full `dcN` iterations the slow coordinate has advanced by
exactly `drN` steps of `sr`: determined from the accumulator window and the
step-count relation of `lineFor_spec`. -/
theorem lineFor_final (steep : Bool) (sc sr : ℤ) (drN dcN : ℕ)
    (hdrdc : drN ≤ dcN) (hdc : 0 < dcN) (r c : ℤ) :
    (lineFor steep sc sr (2 * (drN : ℤ)) dcN dcN r c
        (2 * (drN : ℤ) - (dcN : ℤ))).2.1 = r + (drN : ℤ) * sr := by
  obtain ⟨h1, h2, ⟨j, hr, hd⟩, ⟨hlo, hhi⟩, hhead, hchain⟩ :=
    lineFor_spec steep sc sr drN dcN hdrdc hdc dcN r c
      (2 * (drN : ℤ) - (dcN : ℤ)) (by omega) (by omega)
  set df := (lineFor steep sc sr (2 * (drN : ℤ)) dcN dcN r c
      (2 * (drN : ℤ) - (dcN : ℤ))).2.2.2 with hdfdef
  have key : 2 * (dcN : ℤ) * ((drN : ℤ) - (j : ℤ)) =
      df - 2 * (drN : ℤ) + (dcN : ℤ) := by linear_combination hd
  have hdcpos : (0 : ℤ) < (dcN : ℤ) := by exact_mod_cast hdc
  have hj : (j : ℤ) = (drN : ℤ) := by
    rcases lt_trichotomy ((drN : ℤ) - (j : ℤ)) 0 with hlt | heq | hgt
    · exfalso
      have ha : (drN : ℤ) - (j : ℤ) ≤ -1 := by omega
      have hb : 2 * (dcN : ℤ) * ((drN : ℤ) - (j : ℤ)) ≤ 2 * (dcN : ℤ) * (-1) :=
        mul_le_mul_of_nonneg_left ha (by omega)
      linarith
    · omega
    · exfalso
      have ha : (1 : ℤ) ≤ (drN : ℤ) - (j : ℤ) := by omega
      have hb : 2 * (dcN : ℤ) * 1 ≤ 2 * (dcN : ℤ) * ((drN : ℤ) - (j : ℤ)) :=
        mul_le_mul_of_nonneg_left ha (by omega)
      linarith
  rw [hr, hj]

/-- Walking `natAbs (b - a)` steps of the source's step sign (`-1` when the
delta is zero or negative) from `a` lands exactly on `b`. -/
theorem stepTarget (a b : ℤ) :
    a + ((b - a).natAbs : ℤ) * (if 0 < b - a then 1 else -1) = b := by
  split_ifs with h <;> omega

/-- On distinct endpoints the direction sign agrees with the source's
`1 / -1` step sign. -/
theorem signT_eq_dir {a b : ℤ} (h : a ≠ b) :
    signT a b = if 0 < b - a then 1 else -1 := by
  rcases lt_trichotomy a b with h1 | h1 | h1
  · rw [signT, if_pos h1, if_pos (by omega)]
  · exact absurd h1 h
  · rw [signT, if_neg (by omega), if_pos h1, if_neg (by omega)]

/-- The source's step sign is never zero. -/
theorem stepSign_ne_zero (x : ℤ) : (if 0 < x then (1 : ℤ) else -1) ≠ 0 := by
  split_ifs <;> omega

/-- Appending a final element determines `getLast?`. -/
theorem getLast?_append_singleton {α : Type} (l : List α) (x : α) :
    (l ++ [x]).getLast? = some x :=
  List.getLast?_concat l

/-- Full characterisation of `skimage.draw.line`: its length is the
Chebyshev distance plus one, it starts at `(r0, c0)`, ends at `(r1, c1)`,
and every consecutive pair is one admissible monotone 8-connected step. -/
theorem line_spec (r0 c0 r1 c1 : ℤ) :
    (line r0 c0 r1 c1).length = max (r1 - r0).natAbs (c1 - c0).natAbs + 1 ∧
    (line r0 c0 r1 c1).head? = some (r0, c0) ∧
    (line r0 c0 r1 c1).getLast? = some (r1, c1) ∧
    List.Chain' (lineStep r0 c0 r1 c1) (line r0 c0 r1 c1) := by
  by_cases hsteep : (c1 - c0).natAbs < (r1 - r0).natAbs
  · -- steep octants: the row axis is the fast axis
    have hdc : 0 < (r1 - r0).natAbs := by omega
    have hr0ne : r0 ≠ r1 := by intro h; subst h; simp at hsteep
    have hline : line r0 c0 r1 c1 =
        (lineFor true (if 0 < r1 - r0 then (1 : ℤ) else -1)
          (if 0 < c1 - c0 then (1 : ℤ) else -1) (2 * ((c1 - c0).natAbs : ℤ))
          (r1 - r0).natAbs (r1 - r0).natAbs c0 r0
          (2 * ((c1 - c0).natAbs : ℤ) - ((r1 - r0).natAbs : ℤ))).1 ++ [(r1, c1)] := by
      simp only [line]
      rw [if_pos hsteep]
    obtain ⟨h1, h2, _, _, hhead, hchain⟩ :=
      lineFor_spec true (if 0 < r1 - r0 then (1 : ℤ) else -1)
        (if 0 < c1 - c0 then (1 : ℤ) else -1) (c1 - c0).natAbs (r1 - r0).natAbs
        (le_of_lt hsteep) hdc (r1 - r0).natAbs c0 r0
        (2 * ((c1 - c0).natAbs : ℤ) - ((r1 - r0).natAbs : ℤ)) (by omega) (by omega)
    have hfin := lineFor_final true (if 0 < r1 - r0 then (1 : ℤ) else -1)
        (if 0 < c1 - c0 then (1 : ℤ) else -1) (c1 - c0).natAbs (r1 - r0).natAbs
        (le_of_lt hsteep) hdc c0 r0
    have hptF : ptOf true
        (lineFor true (if 0 < r1 - r0 then (1 : ℤ) else -1)
          (if 0 < c1 - c0 then (1 : ℤ) else -1) (2 * ((c1 - c0).natAbs : ℤ))
          (r1 - r0).natAbs (r1 - r0).natAbs c0 r0
          (2 * ((c1 - c0).natAbs : ℤ) - ((r1 - r0).natAbs : ℤ))).2.1
        (lineFor true (if 0 < r1 - r0 then (1 : ℤ) else -1)
          (if 0 < c1 - c0 then (1 : ℤ) else -1) (2 * ((c1 - c0).natAbs : ℤ))
          (r1 - r0).natAbs (r1 - r0).natAbs c0 r0
          (2 * ((c1 - c0).natAbs : ℤ) - ((r1 - r0).natAbs : ℤ))).2.2.1 = (r1, c1) := by
      rw [hfin, h2]
      simp only [ptOf, Prod.mk.injEq]
      exact ⟨stepTarget r0 r1, stepTarget c0 c1⟩
    have hne : (lineFor true (if 0 < r1 - r0 then (1 : ℤ) else -1)
        (if 0 < c1 - c0 then (1 : ℤ) else -1) (2 * ((c1 - c0).natAbs : ℤ))
        (r1 - r0).natAbs (r1 - r0).natAbs c0 r0
        (2 * ((c1 - c0).natAbs : ℤ) - ((r1 - r0).natAbs : ℤ))).1 ≠ [] := by
      intro hnil
      rw [hnil] at h1
      simp at h1
      omega
    refine ⟨?_, ?_, ?_, ?_⟩
    · rw [hline, List.length_append, h1, Nat.max_eq_left (le_of_lt hsteep)]
      rfl
    · rw [hline, List.head?_append_of_ne_nil _ hne, hhead hdc]
      rfl
    · rw [hline]
      exact getLast?_append_singleton _ _
    · rw [hline]
      rw [hptF] at hchain
      refine List.Chain'.imp ?_ hchain
      intro p q hpq
      obtain ⟨hfast, hslow⟩ := hpq
      refine ⟨Or.inr ?_, ?_, ?_⟩
      · rw [signT_eq_dir hr0ne]
        exact hfast
      · rcases hslow with h | ⟨h, hpos⟩
        · exact Or.inl h
        · refine Or.inr ?_
          have hc0ne : c0 ≠ c1 := by intro he; subst he; simp at hpos
          rw [signT_eq_dir hc0ne]
          exact h
      · intro he
        rw [he, sub_self] at hfast
        exact stepSign_ne_zero _ hfast.symm
  · -- shallow octants: the column axis is the fast axis
    have hle : (r1 - r0).natAbs ≤ (c1 - c0).natAbs := by omega
    have hline : line r0 c0 r1 c1 =
        (lineFor false (if 0 < c1 - c0 then (1 : ℤ) else -1)
          (if 0 < r1 - r0 then (1 : ℤ) else -1) (2 * ((r1 - r0).natAbs : ℤ))
          (c1 - c0).natAbs (c1 - c0).natAbs r0 c0
          (2 * ((r1 - r0).natAbs : ℤ) - ((c1 - c0).natAbs : ℤ))).1 ++ [(r1, c1)] := by
      simp only [line]
      rw [if_neg hsteep]
    by_cases hdc0 : (c1 - c0).natAbs = 0
    · -- both deltas are zero: a single pixel
      have hc : c1 = c0 := by omega
      have hr : r1 = r0 := by omega
      have hnil : line r0 c0 r1 c1 = [(r1, c1)] := by
        rw [hline, hdc0]
        simp [lineFor]
      refine ⟨?_, ?_, ?_, ?_⟩
      · rw [hnil]
        have h1 : (r1 - r0).natAbs = 0 := by omega
        rw [h1, hdc0]
        rfl
      · rw [hnil, hc, hr]
        rfl
      · rw [hnil]
        rfl
      · rw [hnil]
        exact List.chain'_singleton _
    · have hdcpos : 0 < (c1 - c0).natAbs := by omega
      have hc0ne : c0 ≠ c1 := by intro he; subst he; simp at hdcpos
      obtain ⟨h1, h2, _, _, hhead, hchain⟩ :=
        lineFor_spec false (if 0 < c1 - c0 then (1 : ℤ) else -1)
          (if 0 < r1 - r0 then (1 : ℤ) else -1) (r1 - r0).natAbs (c1 - c0).natAbs
          hle hdcpos (c1 - c0).natAbs r0 c0
          (2 * ((r1 - r0).natAbs : ℤ) - ((c1 - c0).natAbs : ℤ)) (by omega) (by omega)
      have hfin := lineFor_final false (if 0 < c1 - c0 then (1 : ℤ) else -1)
          (if 0 < r1 - r0 then (1 : ℤ) else -1) (r1 - r0).natAbs (c1 - c0).natAbs
          hle hdcpos r0 c0
      have hptF : ptOf false
          (lineFor false (if 0 < c1 - c0 then (1 : ℤ) else -1)
            (if 0 < r1 - r0 then (1 : ℤ) else -1) (2 * ((r1 - r0).natAbs : ℤ))
            (c1 - c0).natAbs (c1 - c0).natAbs r0 c0
            (2 * ((r1 - r0).natAbs : ℤ) - ((c1 - c0).natAbs : ℤ))).2.1
          (lineFor false (if 0 < c1 - c0 then (1 : ℤ) else -1)
            (if 0 < r1 - r0 then (1 : ℤ) else -1) (2 * ((r1 - r0).natAbs : ℤ))
            (c1 - c0).natAbs (c1 - c0).natAbs r0 c0
            (2 * ((r1 - r0).natAbs : ℤ) - ((c1 - c0).natAbs : ℤ))).2.2.1 = (r1, c1) := by
        rw [hfin, h2]
        simp only [ptOf, Prod.mk.injEq]
        exact ⟨stepTarget r0 r1, stepTarget c0 c1⟩
      have hne : (lineFor false (if 0 < c1 - c0 then (1 : ℤ) else -1)
          (if 0 < r1 - r0 then (1 : ℤ) else -1) (2 * ((r1 - r0).natAbs : ℤ))
          (c1 - c0).natAbs (c1 - c0).natAbs r0 c0
          (2 * ((r1 - r0).natAbs : ℤ) - ((c1 - c0).natAbs : ℤ))).1 ≠ [] := by
        intro hnil
        rw [hnil] at h1
        simp at h1
        omega
      refine ⟨?_, ?_, ?_, ?_⟩
      · rw [hline, List.length_append, h1, Nat.max_eq_right hle]
        rfl
      · rw [hline, List.head?_append_of_ne_nil _ hne, hhead hdcpos]
        rfl
      · rw [hline]
        exact getLast?_append_singleton _ _
      · rw [hline]
        rw [hptF] at hchain
        refine List.Chain'.imp ?_ hchain
        intro p q hpq
        obtain ⟨hfast, hslow⟩ := hpq
        refine ⟨?_, Or.inr ?_, ?_⟩
        · rcases hslow with h | ⟨h, hpos⟩
          · exact Or.inl h
          · refine Or.inr ?_
            have hr0ne : r0 ≠ r1 := by intro he; subst he; simp at hpos
            rw [signT_eq_dir hr0ne]
            exact h
        · rw [signT_eq_dir hc0ne]
          exact hfast
        · intro he
          rw [he, sub_self] at hfast
          exact stepSign_ne_zero _ hfast.symm

/-- C4: for every pair of pixel coordinates the rasterized path has length
at least 1, its first element is `p0`, its last element is `p1`, and when
`p0 = p1` it is exactly the one-element path `[p0]`. -/
theorem C4_line_endpoints (r0 c0 r1 c1 : ℤ) :
    1 ≤ (line r0 c0 r1 c1).length ∧
    (line r0 c0 r1 c1).head? = some (r0, c0) ∧
    (line r0 c0 r1 c1).getLast? = some (r1, c1) ∧
    (((r0, c0) : ℤ × ℤ) = (r1, c1) → line r0 c0 r1 c1 = [(r0, c0)]) := by
  obtain ⟨hlen, hhead, hlast, -⟩ := line_spec r0 c0 r1 c1
  refine ⟨by omega, hhead, hlast, ?_⟩
  intro he
  rw [Prod.mk.injEq] at he
  obtain ⟨her, hec⟩ := he
  have ha : (r1 - r0).natAbs = 0 := by omega
  have hb : (c1 - c0).natAbs = 0 := by omega
  have hl1 : (line r0 c0 r1 c1).length = 1 := by rw [hlen, ha, hb]; rfl
  cases hll : line r0 c0 r1 c1 with
  | nil => rw [hll] at hl1; simp at hl1
  | cons a t =>
    rw [hll] at hl1 hhead
    rw [List.length_cons] at hl1
    have ht : t = [] := List.eq_nil_of_length_eq_zero (by omega)
    subst ht
    rw [List.head?_cons] at hhead
    injection hhead with haa
    rw [haa]

/-- C5: in every octant, consecutive pixels of the rasterized path differ by
at most one in each component and are never equal (8-connected, no gaps, no
duplicates), and both the row and the column components progress
monotonically from the start pixel toward the end pixel. -/
theorem C5_connectivity_monotone (r0 c0 r1 c1 : ℤ) :
    List.Chain' (fun p q : ℤ × ℤ =>
        (q.1 - p.1).natAbs ≤ 1 ∧ (q.2 - p.2).natAbs ≤ 1 ∧ p ≠ q)
      (line r0 c0 r1 c1) ∧
    (∀ i j : ℕ, i ≤ j → j < (line r0 c0 r1 c1).length →
      ((r0 ≤ r1 →
          ((line r0 c0 r1 c1).getD i (r0, c0)).1 ≤
            ((line r0 c0 r1 c1).getD j (r0, c0)).1) ∧
       (r1 ≤ r0 →
          ((line r0 c0 r1 c1).getD j (r0, c0)).1 ≤
            ((line r0 c0 r1 c1).getD i (r0, c0)).1) ∧
       (c0 ≤ c1 →
          ((line r0 c0 r1 c1).getD i (r0, c0)).2 ≤
            ((line r0 c0 r1 c1).getD j (r0, c0)).2) ∧
       (c1 ≤ c0 →
          ((line r0 c0 r1 c1).getD j (r0, c0)).2 ≤
            ((line r0 c0 r1 c1).getD i (r0, c0)).2))) := by
  obtain ⟨-, -, -, hchain⟩ := line_spec r0 c0 r1 c1
  have hsr : signT r0 r1 = 1 ∨ signT r0 r1 = -1 ∨ signT r0 r1 = 0 := by
    rw [signT]; split_ifs <;> simp
  have hsc : signT c0 c1 = 1 ∨ signT c0 c1 = -1 ∨ signT c0 c1 = 0 := by
    rw [signT]; split_ifs <;> simp
  constructor
  · refine List.Chain'.imp ?_ hchain
    rintro p q ⟨hrow, hcol, hne⟩
    refine ⟨?_, ?_, hne⟩
    · rcases hrow with h | h
      · omega
      · rcases hsr with hs | hs | hs <;> omega
    · rcases hcol with h | h
      · omega
      · rcases hsc with hs | hs | hs <;> omega
  · have hM : List.Chain' (fun p q : ℤ × ℤ =>
        (r0 ≤ r1 → p.1 ≤ q.1) ∧ (r1 ≤ r0 → q.1 ≤ p.1) ∧
        (c0 ≤ c1 → p.2 ≤ q.2) ∧ (c1 ≤ c0 → q.2 ≤ p.2)) (line r0 c0 r1 c1) := by
      refine List.Chain'.imp ?_ hchain
      rintro p q ⟨hrow, hcol, -⟩
      have hsr1 : r0 ≤ r1 → signT r0 r1 = 0 ∨ signT r0 r1 = 1 := by
        intro hle
        rw [signT]
        split_ifs with ht1 ht2
        · exact Or.inr rfl
        · omega
        · exact Or.inl rfl
      have hsr2 : r1 ≤ r0 → signT r0 r1 = 0 ∨ signT r0 r1 = -1 := by
        intro hle
        rw [signT]
        split_ifs with ht1 ht2
        · omega
        · exact Or.inr rfl
        · exact Or.inl rfl
      have hsc1 : c0 ≤ c1 → signT c0 c1 = 0 ∨ signT c0 c1 = 1 := by
        intro hle
        rw [signT]
        split_ifs with ht1 ht2
        · exact Or.inr rfl
        · omega
        · exact Or.inl rfl
      have hsc2 : c1 ≤ c0 → signT c0 c1 = 0 ∨ signT c0 c1 = -1 := by
        intro hle
        rw [signT]
        split_ifs with ht1 ht2
        · omega
        · exact Or.inr rfl
        · exact Or.inl rfl
      refine ⟨?_, ?_, ?_, ?_⟩
      · intro hle
        rcases hrow with h | h
        · omega
        · rcases hsr1 hle with hs | hs <;> omega
      · intro hle
        rcases hrow with h | h
        · omega
        · rcases hsr2 hle with hs | hs <;> omega
      · intro hle
        rcases hcol with h | h
        · omega
        · rcases hsc1 hle with hs | hs <;> omega
      · intro hle
        rcases hcol with h | h
        · omega
        · rcases hsc2 hle with hs | hs <;> omega
    haveI : IsTrans (ℤ × ℤ) (fun p q : ℤ × ℤ =>
        (r0 ≤ r1 → p.1 ≤ q.1) ∧ (r1 ≤ r0 → q.1 ≤ p.1) ∧
        (c0 ≤ c1 → p.2 ≤ q.2) ∧ (c1 ≤ c0 → q.2 ≤ p.2)) := by
      constructor
      rintro a b cc ⟨h1, h2, h3, h4⟩ ⟨g1, g2, g3, g4⟩
      exact ⟨fun h => le_trans (h1 h) (g1 h), fun h => le_trans (g2 h) (h2 h),
        fun h => le_trans (h3 h) (g3 h), fun h => le_trans (g4 h) (h4 h)⟩
    have hpw := List.chain'_iff_pairwise.mp hM
    intro i j hij hjlen
    rcases Nat.eq_or_lt_of_le hij with heq | hlt
    · subst heq
      exact ⟨fun _ => le_refl _, fun _ => le_refl _, fun _ => le_refl _,
        fun _ => le_refl _⟩
    · have hilen : i < (line r0 c0 r1 c1).length := lt_trans hlt hjlen
      have hget := (List.pairwise_iff_get.mp hpw) ⟨i, hilen⟩ ⟨j, hjlen⟩ hlt
      rw [List.getD_eq_getElem _ _ hilen, List.getD_eq_getElem _ _ hjlen]
      simp only [List.get_eq_getElem] at hget
      exact hget

/-- C9: the rasterized path from `p0` to `p1` has the same length as the
rasterized path from `p1` to `p0`. -/
theorem C9_length_symmetric (r0 c0 r1 c1 : ℤ) :
    (line r0 c0 r1 c1).length = (line r1 c1 r0 c0).length := by
  obtain ⟨h1, -, -, -⟩ := line_spec r0 c0 r1 c1
  obtain ⟨h2, -, -, -⟩ := line_spec r1 c1 r0 c0
  rw [h1, h2]
  have e1 : (r1 - r0).natAbs = (r0 - r1).natAbs := by omega
  have e2 : (c1 - c0).natAbs = (c0 - c1).natAbs := by omega
  rw [e1, e2]

/-- Witness for C4 at the coincident endpoints `(5, 7)`. -/
theorem C4_line_endpoints_witness : line 5 7 5 7 = [((5 : ℤ), (7 : ℤ))] :=
  (C4_line_endpoints 5 7 5 7).2.2.2 rfl

/-- Witness for C5 on the horizontal segment from `(0, 0)` to `(0, 3)`:
the column component is monotone between positions 1 and 3. -/
theorem C5_connectivity_monotone_witness :
    ((line 0 0 0 3).getD 1 (0, 0)).2 ≤ ((line 0 0 0 3).getD 3 (0, 0)).2 :=
  ((C5_connectivity_monotone 0 0 0 3).2 1 3 (by omega) (by decide)).2.2.1 (by omega)

/-- A truly out-of-range index (beyond numpy's negative-wrapping window)
resolves to an `IndexError`. -/
theorem wrapIdx_none (n : ℕ) (i : ℤ) (h : i < -(n : ℤ) ∨ (n : ℤ) ≤ i) :
    wrapIdx n i = none := by
  rw [wrapIdx, if_neg (by omega), if_neg (by omega)]

/-- An in-range nonnegative pixel resolves to a plain lookup. -/
theorem npGet_inbounds (g : Grid) (r c : ℤ) (hr : 0 ≤ r) (hr2 : r < (g.height : ℤ))
    (hc : 0 ≤ c) (hc2 : c < (g.width : ℤ)) :
    npGet g r c = some (g.data r.toNat c.toNat) := by
  have h1 : wrapIdx g.height r = some r.toNat := by
    rw [wrapIdx, if_pos ⟨hr, hr2⟩]
  have h2 : wrapIdx g.width c = some c.toNat := by
    rw [wrapIdx, if_pos ⟨hc, hc2⟩]
  unfold npGet
  rw [h1, h2]

/-- A pixel outside `[-h, h) × [-w, w)` makes the lookup raise. -/
theorem npGet_oob (g : Grid) (r c : ℤ)
    (h : r < -(g.height : ℤ) ∨ (g.height : ℤ) ≤ r ∨
         c < -(g.width : ℤ) ∨ (g.width : ℤ) ≤ c) :
    npGet g r c = none := by
  unfold npGet
  rcases h with h | h | h | h
  · rw [wrapIdx_none g.height r (Or.inl h)]
  · rw [wrapIdx_none g.height r (Or.inr h)]
  · rw [wrapIdx_none g.width c (Or.inl h)]
    cases wrapIdx g.height r <;> rfl
  · rw [wrapIdx_none g.width c (Or.inr h)]
    cases wrapIdx g.height r <;> rfl

/-- Inside numpy's window `[-h, h) × [-w, w)` the lookup succeeds and returns
the sample at the euclidean-mod position (negative indices wrap to the
opposite edge). -/
theorem npGet_wrap (g : Grid) (r c : ℤ) (hr : -(g.height : ℤ) ≤ r)
    (hr2 : r < (g.height : ℤ)) (hc : -(g.width : ℤ) ≤ c) (hc2 : c < (g.width : ℤ)) :
    npGet g r c =
      some (g.data ((r % (g.height : ℤ)).toNat) ((c % (g.width : ℤ)).toNat)) := by
  have hrow : wrapIdx g.height r = some ((r % (g.height : ℤ)).toNat) := by
    rw [wrapIdx]
    by_cases h0 : 0 ≤ r ∧ r < (g.height : ℤ)
    · rw [if_pos h0, Int.emod_eq_of_lt h0.1 h0.2]
    · rw [if_neg h0, if_pos (by omega)]
      have he : r % (g.height : ℤ) = r + (g.height : ℤ) := by
        have h1 : (r + (g.height : ℤ) * 1) % (g.height : ℤ) = r % (g.height : ℤ) :=
          Int.add_mul_emod_self_left _ _ _
        rw [mul_one] at h1
        rw [← h1]
        exact Int.emod_eq_of_lt (by omega) (by omega)
      rw [he]
  have hcol : wrapIdx g.width c = some ((c % (g.width : ℤ)).toNat) := by
    rw [wrapIdx]
    by_cases h0 : 0 ≤ c ∧ c < (g.width : ℤ)
    · rw [if_pos h0, Int.emod_eq_of_lt h0.1 h0.2]
    · rw [if_neg h0, if_pos (by omega)]
      have he : c % (g.width : ℤ) = c + (g.width : ℤ) := by
        have h1 : (c + (g.width : ℤ) * 1) % (g.width : ℤ) = c % (g.width : ℤ) :=
          Int.add_mul_emod_self_left _ _ _
        rw [mul_one] at h1
        rw [← h1]
        exact Int.emod_eq_of_lt (by omega) (by omega)
      rw [he]
  unfold npGet
  rw [hrow, hcol]

/-- Sampling a path of in-bounds nonnegative pixels is exactly the mapped
lookup, in path order. -/
theorem sampleAll_map (g : Grid) (path : List (ℤ × ℤ))
    (h : ∀ p ∈ path, 0 ≤ p.1 ∧ p.1 < (g.height : ℤ) ∧ 0 ≤ p.2 ∧ p.2 < (g.width : ℤ)) :
    sampleAll g path = some (path.map (fun p => g.data p.1.toNat p.2.toNat)) := by
  induction path with
  | nil => rfl
  | cons p ps ih =>
    obtain ⟨h1, h2, h3, h4⟩ := h p (List.mem_cons_self p ps)
    have hp := npGet_inbounds g p.1 p.2 h1 h2 h3 h4
    have hps := ih (fun q hq => h q (List.mem_cons_of_mem p hq))
    simp only [sampleAll]
    rw [hp, hps]
    rfl

/-- One truly out-of-bounds pixel anywhere on the path makes the whole
sampling raise. -/
theorem sampleAll_none (g : Grid) (path : List (ℤ × ℤ)) (p : ℤ × ℤ)
    (hmem : p ∈ path)
    (h : p.1 < -(g.height : ℤ) ∨ (g.height : ℤ) ≤ p.1 ∨
         p.2 < -(g.width : ℤ) ∨ (g.width : ℤ) ≤ p.2) :
    sampleAll g path = none := by
  induction path with
  | nil => simp at hmem
  | cons q qs ih =>
    simp only [sampleAll]
    rcases List.mem_cons.mp hmem with heq | hmem2
    · subst heq
      rw [npGet_oob g p.1 p.2 h]
    · rw [ih hmem2]
      cases npGet g q.1 q.2 <;> rfl

/-- C6: on a path whose pixels all lie inside `[0, h) × [0, w)` the sampling
step succeeds, the profile has exactly the path's length, and the i-th
profile value is the grid sample at the i-th path pixel. -/
theorem C6_sample_in_bounds (g : Grid) (path : List (ℤ × ℤ))
    (h : ∀ p ∈ path, 0 ≤ p.1 ∧ p.1 < (g.height : ℤ) ∧ 0 ≤ p.2 ∧ p.2 < (g.width : ℤ)) :
    sampleAll g path = some (path.map (fun p => g.data p.1.toNat p.2.toNat)) ∧
    (path.map (fun p => g.data p.1.toNat p.2.toNat)).length = path.length ∧
    (∀ i, i < path.length →
      (path.map (fun p => g.data p.1.toNat p.2.toNat)).getD i 0 =
        g.data ((path.getD i (0, 0)).1.toNat) ((path.getD i (0, 0)).2.toNat)) := by
  refine ⟨sampleAll_map g path h, by simp, ?_⟩
  intro i hi
  rw [List.getD_eq_getElem _ _ (by simpa using hi), List.getD_eq_getElem _ _ hi,
    List.getElem_map]

/-- Witness for C6 on a concrete 2 × 3 grid and a two-pixel path. -/
theorem C6_sample_in_bounds_witness :
    sampleAll gridW pathW =
      some (pathW.map (fun p => gridW.data p.1.toNat p.2.toNat)) :=
  (C6_sample_in_bounds gridW pathW (by decide)).1

/-- C2 counterexample: the pixel `(-1, 0)` has its row outside `[0, 2)` on a
2 × 2 grid, yet the sampling step does not fail: numpy's negative indexing
returns the sample of the opposite edge. -/
theorem C2_negative_index_counterexample :
    ¬ (0 ≤ (-1 : ℤ) ∧ (-1 : ℤ) < (g2.height : ℤ)) ∧
    sampleAll g2 [((-1 : ℤ), (0 : ℤ))] = some [(10 : ℚ)] ∧
    sampleAll g2 [((-1 : ℤ), (0 : ℤ))] ≠ none := by
  refine ⟨by decide, by decide, by decide⟩

/-- C2 amended: the sampling step fails exactly on pixels outside numpy's
window, i.e. with row outside `[-h, h)` or col outside `[-w, w)`; and in the
main block such a failure is the generic processing error with no profile
and no DXF temporary file produced. -/
theorem C2_out_of_bounds_amended :
    (∀ (g : Grid) (path : List (ℤ × ℤ)) (p : ℤ × ℤ), p ∈ path →
      (p.1 < -(g.height : ℤ) ∨ (g.height : ℤ) ≤ p.1 ∨
       p.2 < -(g.width : ℤ) ∨ (g.width : ℤ) ≤ p.2) →
      sampleAll g path = none) ∧
    (∀ (sx sy ex ey : ℚ) (env : Env), env.openOk = true →
      env.transform.det ≠ 0 →
      extract_cross_section env.grid (toPixel env.transform sx sy)
        (toPixel env.transform ex ey) = none →
      (runTry sx sy ex ey env).outcome = .procError ∧
      (runTry sx sy ex ey env).profile = none ∧
      (runTry sx sy ex ey env).dxfCreated = false) := by
  constructor
  · intro g path p hmem h
    exact sampleAll_none g path p hmem h
  · intro sx sy ex ey env hopen hdet hext
    rw [runTry, if_pos hopen, if_neg hdet, hext]
    exact ⟨rfl, rfl, rfl⟩

/-- Witness for C2 (amended) at a concrete row overflow. -/
theorem C2_out_of_bounds_witness :
    sampleAll g2 [((5 : ℤ), (0 : ℤ))] = none :=
  C2_out_of_bounds_amended.1 g2 [(5, 0)] (5, 0) (by decide) (by decide)

/-- C10: a pixel with one negative in-window component (and the other in
range) does not fail; numpy's negative indexing silently returns the sample
at the wrapped position `(row mod h, col mod w)` — the opposite edge of the
raster. -/
theorem C10_negative_wrap (g : Grid) (r c : ℤ)
    (h : (-(g.height : ℤ) ≤ r ∧ r < 0 ∧ 0 ≤ c ∧ c < (g.width : ℤ)) ∨
         (-(g.width : ℤ) ≤ c ∧ c < 0 ∧ 0 ≤ r ∧ r < (g.height : ℤ))) :
    npGet g r c =
      some (g.data ((r % (g.height : ℤ)).toNat) ((c % (g.width : ℤ)).toNat)) ∧
    sampleAll g [(r, c)] =
      some [g.data ((r % (g.height : ℤ)).toNat) ((c % (g.width : ℤ)).toNat)] := by
  have hget : npGet g r c =
      some (g.data ((r % (g.height : ℤ)).toNat) ((c % (g.width : ℤ)).toNat)) := by
    rcases h with ⟨h1, h2, h3, h4⟩ | ⟨h1, h2, h3, h4⟩
    · exact npGet_wrap g r c h1 (by omega) (by omega) h4
    · exact npGet_wrap g r c (by omega) h4 h1 (by omega)
  refine ⟨hget, ?_⟩
  simp only [sampleAll]
  rw [hget]

/-- Witness for C10: on the 2 × 2 grid, the pixel `(-1, 0)` yields the
sample of the wrapped row. -/
theorem C10_negative_wrap_witness :
    npGet g2 (-1) 0 =
      some (g2.data (((-1 : ℤ) % (g2.height : ℤ)).toNat)
        (((0 : ℤ) % (g2.width : ℤ)).toNat)) :=
  (C10_negative_wrap g2 (-1) 0 (Or.inl (by decide))).1

/-- The indices produced by `enumerate` from `i` are `i, i+1, ...`. -/
theorem enumFromQ_map_fst (i : ℕ) (l : List ℚ) :
    (enumFromQ i l).map Prod.fst = List.range' i l.length := by
  induction l generalizing i with
  | nil => rfl
  | cons x xs ih =>
    simp only [enumFromQ, List.map_cons, List.length_cons, List.range'_succ]
    rw [ih (i + 1)]

/-- The values produced by `enumerate` are the list itself, in order. -/
theorem enumFromQ_map_snd (i : ℕ) (l : List ℚ) :
    (enumFromQ i l).map Prod.snd = l := by
  induction l generalizing i with
  | nil => rfl
  | cons x xs ih =>
    simp only [enumFromQ, List.map_cons, ih (i + 1)]

/-- Enumeration preserves length. -/
theorem enumFromQ_length (i : ℕ) (l : List ℚ) :
    (enumFromQ i l).length = l.length := by
  induction l generalizing i with
  | nil => rfl
  | cons x xs ih =>
    simp only [enumFromQ, List.length_cons, ih (i + 1)]

/-- The k-th pair produced by `enumerate` from `i` is `(i + k, l[k])`. -/
theorem enumFromQ_getD (i k : ℕ) (l : List ℚ) (hk : k < l.length) :
    (enumFromQ i l).getD k (0, 0) = (i + k, l.getD k 0) := by
  induction l generalizing i k with
  | nil => simp at hk
  | cons x xs ih =>
    cases k with
    | zero => simp [enumFromQ]
    | succ m =>
      simp only [enumFromQ, List.getD_cons_succ]
      rw [ih (i + 1) m (by simp at hk; omega)]
      have he : i + 1 + m = i + (m + 1) := by omega
      rw [he]

/-- C8: the export step produces exactly one point per profile value, the
first components are exactly the indices `0, 1, ..., n-1` in increasing
order, the second components are the profile values in order, and the i-th
export point is `(i, profile[i])`. -/
theorem C8_export_points (profile : List ℚ) :
    (exportPoints profile).length = profile.length ∧
    (exportPoints profile).map Prod.fst = List.range profile.length ∧
    (exportPoints profile).map Prod.snd = profile ∧
    (∀ i, i < profile.length →
      (exportPoints profile).getD i (0, 0) = (i, profile.getD i 0)) := by
  refine ⟨enumFromQ_length 0 profile, ?_, enumFromQ_map_snd 0 profile, ?_⟩
  · rw [exportPoints, enumFromQ_map_fst, List.range_eq_range']
  · intro i hi
    have h := enumFromQ_getD 0 i profile hi
    simpa using h

/-- Witness for C8 on the two-value profile `[4, 9]`. -/
theorem C8_export_points_witness :
    (exportPoints [(4 : ℚ), 9]).getD 1 (0, 0) = (1, ([(4 : ℚ), 9]).getD 1 0) :=
  (C8_export_points [4, 9]).2.2.2 1 (by decide)

/-- Evaluation rule for `get_integer_digits` from floor bounds on `|q|`. -/
theorem gid_eq_of_floor (q : ℚ) (n : ℕ) (h1 : (n : ℚ) ≤ |q|) (h2 : |q| < (n : ℚ) + 1) :
    get_integer_digits q = pyStrLen n := by
  have hfl : ⌊|q|⌋ = (n : ℤ) := by
    rw [Int.floor_eq_iff]
    constructor
    · exact_mod_cast h1
    · push_cast
      exact h2
  rw [get_integer_digits, hfl]
  simp

/-- The pipeline body always creates the `.tif` temporary file first. -/
theorem runTry_tifCreated (sx sy ex ey : ℚ) (env : Env) :
    (runTry sx sy ex ey env).tifCreated = true := by
  by_cases h : env.openOk = true
  · rw [runTry, if_pos h]
    by_cases hd : env.transform.det = 0
    · rw [if_pos hd]
    · rw [if_neg hd]
      cases extract_cross_section env.grid (toPixel env.transform sx sy)
          (toPixel env.transform ex ey) with
      | some elev =>
        by_cases hs : env.saveOk = true <;> simp [hs]
      | none => rfl
  · rw [runTry, if_neg h]

/-- With the upload present and all four fields parsed, the main block
reduces to the digit-count gate. -/
theorem runMain_good (a b c d : ℚ) (env : Env) :
    runMain true (goodField a) (goodField b) (goodField c) (goodField d) env =
      if get_integer_digits a = get_integer_digits b ∧
          get_integer_digits b = get_integer_digits c ∧
          get_integer_digits c = get_integer_digits d then
        runTry a b c d env
      else noFileTrace Outcome.digitMismatch := by
  rw [runMain, if_pos ⟨rfl, rfl, rfl, rfl, rfl⟩]
  rfl

/-- C7: with an upload present and four parsed numeric fields, the pipeline
proceeds past validation (creates the raster temporary file and enters the
processing block) exactly when the four integer-part digit counts are all
equal; the inputs `(12.5, 7.3, 100.1, 8.9)` are rejected with digit counts
`(2, 1, 3, 1)`, the inputs `(12.5, 34.2, 56.7, 78.9)` are accepted with all
counts 2, and on rejection the raster is never opened or read and no
temporary file is created. -/
theorem C7_digit_gate :
    (∀ (a b c d : ℚ) (env : Env),
      ((runMain true (goodField a) (goodField b) (goodField c) (goodField d)
          env).tifCreated = true ↔
        (get_integer_digits a = get_integer_digits b ∧
         get_integer_digits b = get_integer_digits c ∧
         get_integer_digits c = get_integer_digits d))) ∧
    (get_integer_digits (25 / 2) = 2 ∧ get_integer_digits (73 / 10) = 1 ∧
     get_integer_digits (1001 / 10) = 3 ∧ get_integer_digits (89 / 10) = 1 ∧
     (runMain true (goodField (25 / 2)) (goodField (73 / 10))
        (goodField (1001 / 10)) (goodField (89 / 10)) env0).outcome =
       Outcome.digitMismatch ∧
     get_integer_digits (171 / 5) = 2 ∧ get_integer_digits (567 / 10) = 2 ∧
     get_integer_digits (789 / 10) = 2 ∧
     (runMain true (goodField (25 / 2)) (goodField (171 / 5))
        (goodField (567 / 10)) (goodField (789 / 10)) env0).tifCreated = true) ∧
    (∀ (a b c d : ℚ) (env : Env),
      ¬ (get_integer_digits a = get_integer_digits b ∧
         get_integer_digits b = get_integer_digits c ∧
         get_integer_digits c = get_integer_digits d) →
      (runMain true (goodField a) (goodField b) (goodField c) (goodField d)
          env).rasterRead = false ∧
      (runMain true (goodField a) (goodField b) (goodField c) (goodField d)
          env).tifCreated = false ∧
      (runMain true (goodField a) (goodField b) (goodField c) (goodField d)
          env).outcome = Outcome.digitMismatch) := by
  have hg1 : get_integer_digits (25 / 2) = 2 := by
    rw [gid_eq_of_floor (25 / 2) 12
      (by rw [abs_of_nonneg (show (0 : ℚ) ≤ 25 / 2 by norm_num)]; norm_num)
      (by rw [abs_of_nonneg (show (0 : ℚ) ≤ 25 / 2 by norm_num)]; norm_num)]
    decide
  have hg2 : get_integer_digits (73 / 10) = 1 := by
    rw [gid_eq_of_floor (73 / 10) 7
      (by rw [abs_of_nonneg (show (0 : ℚ) ≤ 73 / 10 by norm_num)]; norm_num)
      (by rw [abs_of_nonneg (show (0 : ℚ) ≤ 73 / 10 by norm_num)]; norm_num)]
    decide
  have hg3 : get_integer_digits (1001 / 10) = 3 := by
    rw [gid_eq_of_floor (1001 / 10) 100
      (by rw [abs_of_nonneg (show (0 : ℚ) ≤ 1001 / 10 by norm_num)]; norm_num)
      (by rw [abs_of_nonneg (show (0 : ℚ) ≤ 1001 / 10 by norm_num)]; norm_num)]
    decide
  have hg4 : get_integer_digits (89 / 10) = 1 := by
    rw [gid_eq_of_floor (89 / 10) 8
      (by rw [abs_of_nonneg (show (0 : ℚ) ≤ 89 / 10 by norm_num)]; norm_num)
      (by rw [abs_of_nonneg (show (0 : ℚ) ≤ 89 / 10 by norm_num)]; norm_num)]
    decide
  have hg5 : get_integer_digits (171 / 5) = 2 := by
    rw [gid_eq_of_floor (171 / 5) 34
      (by rw [abs_of_nonneg (show (0 : ℚ) ≤ 171 / 5 by norm_num)]; norm_num)
      (by rw [abs_of_nonneg (show (0 : ℚ) ≤ 171 / 5 by norm_num)]; norm_num)]
    decide
  have hg6 : get_integer_digits (567 / 10) = 2 := by
    rw [gid_eq_of_floor (567 / 10) 56
      (by rw [abs_of_nonneg (show (0 : ℚ) ≤ 567 / 10 by norm_num)]; norm_num)
      (by rw [abs_of_nonneg (show (0 : ℚ) ≤ 567 / 10 by norm_num)]; norm_num)]
    decide
  have hg7 : get_integer_digits (789 / 10) = 2 := by
    rw [gid_eq_of_floor (789 / 10) 78
      (by rw [abs_of_nonneg (show (0 : ℚ) ≤ 789 / 10 by norm_num)]; norm_num)
      (by rw [abs_of_nonneg (show (0 : ℚ) ≤ 789 / 10 by norm_num)]; norm_num)]
    decide
  refine ⟨?_, ⟨hg1, hg2, hg3, hg4, ?_, hg5, hg6, hg7, ?_⟩, ?_⟩
  · intro a b c d env
    rw [runMain_good]
    by_cases h : get_integer_digits a = get_integer_digits b ∧
        get_integer_digits b = get_integer_digits c ∧
        get_integer_digits c = get_integer_digits d
    · rw [if_pos h]
      exact ⟨fun _ => h, fun _ => runTry_tifCreated a b c d env⟩
    · rw [if_neg h]
      exact iff_of_false (by simp [noFileTrace]) h
  · rw [runMain_good]
    rw [if_neg (by rw [hg1, hg2, hg3, hg4]; omega)]
    rfl
  · rw [runMain_good]
    rw [if_pos ⟨by rw [hg1, hg5], by rw [hg5, hg6], by rw [hg6, hg7]⟩]
    exact runTry_tifCreated _ _ _ _ env0
  · intro a b c d env h
    rw [runMain_good, if_neg h]
    exact ⟨rfl, rfl, rfl⟩

/-- Witness for C7's rejection clause at the mismatching integer inputs
`(1, 10, 1, 1)` (digit counts 1, 2, 1, 1). -/
theorem C7_digit_gate_witness :
    (runMain true (goodField 1) (goodField 10) (goodField 1) (goodField 1)
        env0).rasterRead = false ∧
    (runMain true (goodField 1) (goodField 10) (goodField 1) (goodField 1)
        env0).tifCreated = false ∧
    (runMain true (goodField 1) (goodField 10) (goodField 1) (goodField 1)
        env0).outcome = Outcome.digitMismatch :=
  C7_digit_gate.2.2 1 10 1 1 env0 (by decide)

/-- C1: the coordinate-mapping step floors, it does not round to nearest.
At the identity transform and the geographic point `(3/5, 3/5)`, the inverse
transform yields the fractional pixel `(3/5, 3/5)`; the code maps it to
`(0, 0)` (because `rasterio.transform.rowcol` applies `math.floor` before
the `int(round(...))`, which then receives an integer and is a no-op),
although `1` is strictly nearer to `3/5` than `0` — contradicting the
source's own comment "Round to nearest integer for pixel coordinates". -/
theorem C1_rowcol_floors_not_rounds :
    Affine.invColRow idAffine (3 / 5) (3 / 5) = (3 / 5, 3 / 5) ∧
    toPixel idAffine (3 / 5) (3 / 5) = (0, 0) ∧
    |(3 / 5 : ℚ) - 1| < |(3 / 5 : ℚ) - 0| := by
  have hinv : Affine.invColRow idAffine (3 / 5) (3 / 5) = (3 / 5, 3 / 5) := by
    simp only [Affine.invColRow, idAffine, Affine.det]
    norm_num
  have hfl : ⌊(3 / 5 : ℚ)⌋ = 0 := by
    rw [Int.floor_eq_iff]
    norm_num
  refine ⟨hinv, ?_, ?_⟩
  · rw [toPixel, rowcol, hinv]
    simp only [pyRoundInt]
    rw [hfl]
  · rw [abs_of_nonpos (by norm_num : (3 / 5 : ℚ) - 1 ≤ 0),
      abs_of_nonneg (by norm_num : (0 : ℚ) ≤ 3 / 5 - 0)]
    norm_num

/-- Pixel mapping under the identity transform: floor of the swapped
coordinates. -/
theorem toPixel_idAffine_nat (x y : ℚ) (nx ny : ℕ) (hx : x = (nx : ℚ))
    (hy : y = (ny : ℚ)) :
    toPixel idAffine x y = ((ny : ℤ), (nx : ℤ)) := by
  subst hx
  subst hy
  have hinv : Affine.invColRow idAffine (nx : ℚ) (ny : ℚ) = ((nx : ℚ), (ny : ℚ)) := by
    simp only [Affine.invColRow, idAffine, Affine.det]
    norm_num
  rw [toPixel, rowcol, hinv]
  simp only [pyRoundInt]
  rw [Int.floor_natCast, Int.floor_natCast]

/-- C3: temporary files are not cleaned up on error paths.  With valid
inputs `(1, 2, 3, 4)` (all digit counts 1) and an environment whose raster
open fails after the upload has been written to the `.tif` temporary file,
the request ends in the generic processing error with the `.tif` file
created but never deleted — the `os.unlink` calls sit at the end of the
`try` block and are skipped by the exception.  On the fully successful path
both temporary files are deleted. -/
theorem C3_tempfile_leak :
    ((runMain true (goodField 1) (goodField 2) (goodField 3) (goodField 4)
        envFail).tifCreated = true ∧
     (runMain true (goodField 1) (goodField 2) (goodField 3) (goodField 4)
        envFail).tifDeleted = false ∧
     (runMain true (goodField 1) (goodField 2) (goodField 3) (goodField 4)
        envFail).outcome = Outcome.procError) ∧
    ((runMain true (goodField 1) (goodField 2) (goodField 3) (goodField 4)
        envGood).outcome = Outcome.success ∧
     (runMain true (goodField 1) (goodField 2) (goodField 3) (goodField 4)
        envGood).tifDeleted = true ∧
     (runMain true (goodField 1) (goodField 2) (goodField 3) (goodField 4)
        envGood).dxfDeleted = true) := by
  have hdig : get_integer_digits 1 = get_integer_digits 2 ∧
      get_integer_digits 2 = get_integer_digits 3 ∧
      get_integer_digits 3 = get_integer_digits 4 := by decide
  constructor
  · rw [runMain_good, if_pos hdig, runTry]
    rw [if_neg (by decide : ¬ envFail.openOk = true)]
    exact ⟨rfl, rfl, rfl⟩
  · have hdet : ¬ envGood.transform.det = 0 := by
      show ¬ idAffine.det = 0
      simp only [Affine.det, idAffine]
      norm_num
    have hp0 : toPixel envGood.transform 1 2 = (2, 1) := by
      show toPixel idAffine 1 2 = (2, 1)
      exact toPixel_idAffine_nat 1 2 1 2 (by norm_num) (by norm_num)
    have hp1 : toPixel envGood.transform 3 4 = (4, 3) := by
      show toPixel idAffine 3 4 = (4, 3)
      exact toPixel_idAffine_nat 3 4 3 4 (by norm_num) (by norm_num)
    have hext : extract_cross_section envGood.grid ((2 : ℤ), (1 : ℤ))
        ((4 : ℤ), (3 : ℤ)) = some [0, 0, 0] := by decide
    rw [runMain_good, if_pos hdig, runTry]
    rw [if_pos (by decide : envGood.openOk = true), if_neg hdet, hp0, hp1, hext]
    have hsave : envGood.saveOk = true := by decide
    simp [hsave]
